import Mathlib

/-!
# Verification of the SwarmCore physics engine

Shallow embedding of `src/python/swarmalator_rl/core.py` (class `SwarmCore`).
Floating-point numbers are modelled as real numbers; the NumPy pseudo-random
stream `np.random.RandomState(seed)` is modelled as a seed-indexed stream of
unit draws `U : ℤ → ℕ → ℝ` together with an explicit stream position, so that
`rng.uniform(low, high)` consuming the k-th draw returns `low + (high-low)*U seed k`.
-/

namespace SwarmSpec

open scoped BigOperators
open Classical

noncomputable section

/-! ## Physics constants (class attributes of `SwarmCore`, core.py lines 23-34) -/

/-- `J = 8.0` : phase-spatial coupling strength. -/
def J : ℝ := 8

/-- `K = -4.0` : phase coupling strength. -/
def K : ℝ := -4

/-- `TIME_SCALE = 50.0`. -/
def TIME_SCALE : ℝ := 50

/-- `REPULSION_STRENGTH = 4000.0`. -/
def REPULSION_STRENGTH : ℝ := 4000

/-- `EPSILON = 4.0` : softening constant. -/
def EPSILON : ℝ := 4

/-- `BASE_OMEGA = 0.1`. -/
def BASE_OMEGA : ℝ := 1 / 10

/-- `OMEGA_VARIATION = 0.0`. -/
def OMEGA_VARIATION : ℝ := 0

/-- `LOGICAL_WIDTH = 1000.0`. -/
def LOGICAL_WIDTH : ℝ := 1000

/-- `LOGICAL_HEIGHT = 1000.0`. -/
def LOGICAL_HEIGHT : ℝ := 1000

/-- `DT = 0.05 * TIME_SCALE` (= 2.5). -/
def DT : ℝ := (5 / 100) * TIME_SCALE

/-! ## State arrays (core.py lines 46-58)

`N` is the class attribute `self.N` (source value 100); the code reads it only
through `self.N`, so the embedding carries it as a parameter. -/

/-- Per-agent simulation state: the arrays `agents_pos`, `agents_phase`,
`agents_vel`, `agents_omega`, `agents_force`, `agents_phase_derivative`, plus
the action tracking fields `prev_action` and `prev_positions` (a sparse dict,
modelled as a partial map on indices). -/
structure SwarmState (N : ℕ) where
  pos : Fin N → ℝ × ℝ
  phase : Fin N → ℝ
  vel : Fin N → ℝ × ℝ
  omega : Fin N → ℝ
  force : Fin N → ℝ × ℝ
  phaseDeriv : Fin N → ℝ
  prevAction : ℤ
  prevPositions : Fin N → Option (ℝ × ℝ)

/-- `np.mod x m = x - m * floor (x / m)` (NumPy floored modulo on reals). -/
def fmod (x m : ℝ) : ℝ := x - m * ⌊x / m⌋

/-! ## Force kernel (`_calculate_forces`, core.py lines 148-228) -/

/-- `dx[i,j] = pos[j].x - pos[i].x` (line 169): straight-line, non-toroidal. -/
def dxM {N : ℕ} (pos : Fin N → ℝ × ℝ) (i j : Fin N) : ℝ := (pos j).1 - (pos i).1

/-- `dy[i,j] = pos[j].y - pos[i].y` (line 170): straight-line, non-toroidal. -/
def dyM {N : ℕ} (pos : Fin N → ℝ × ℝ) (i j : Fin N) : ℝ := (pos j).2 - (pos i).2

/-- `distance_sq[i,j] = dx*dx + dy*dy` (line 173). -/
def distSqM {N : ℕ} (pos : Fin N → ℝ × ℝ) (i j : Fin N) : ℝ :=
  dxM pos i j * dxM pos i j + dyM pos i j * dyM pos i j

/-- `mask = eye(N) | (distance_sq < 1e-6)` (line 177): self-interactions and
near-coincident pairs are excluded. -/
def maskM {N : ℕ} (pos : Fin N → ℝ × ℝ) (i j : Fin N) : Prop :=
  i = j ∨ distSqM pos i j < 1 / 1000000

/-- `inv_distance = where(mask, 0, 1/distance)` (line 194), with
`distance = sqrt(distance_sq)`. -/
def invDistM {N : ℕ} (pos : Fin N → ℝ × ℝ) (i j : Fin N) : ℝ :=
  if maskM pos i j then 0 else 1 / Real.sqrt (distSqM pos i j)

/-- `repulsion_magnitude = REPULSION_STRENGTH * (1/(distance_sq + EPSILON)) / N`
(lines 190-191). At masked pairs the code has set `distance_sq` to `inf`, so
`1/(inf + EPSILON) = 0` and the magnitude is 0, which is what the `if` encodes. -/
def repMagM {N : ℕ} (pos : Fin N → ℝ × ℝ) (i j : Fin N) : ℝ :=
  if maskM pos i j then 0
  else REPULSION_STRENGTH * (1 / (distSqM pos i j + EPSILON)) / N

/-- Repulsion x-component on i from j: `(-dx * inv_distance) * repulsion_magnitude`
(lines 195-199). -/
def repFxM {N : ℕ} (pos : Fin N → ℝ × ℝ) (i j : Fin N) : ℝ :=
  -dxM pos i j * invDistM pos i j * repMagM pos i j

/-- Repulsion y-component on i from j (lines 196-200). -/
def repFyM {N : ℕ} (pos : Fin N → ℝ × ℝ) (i j : Fin N) : ℝ :=
  -dyM pos i j * invDistM pos i j * repMagM pos i j

/-- `coupling_strength = (1 + J*cos(phase[j]-phase[i])) / N` (line 209). -/
def couplingM {N : ℕ} (phase : Fin N → ℝ) (i j : Fin N) : ℝ :=
  (1 + J * Real.cos (phase j - phase i)) / N

/-- J-term x-component on i from j: `where(mask, 0, dx*inv_distance) * coupling_strength`
(lines 212-216). -/
def attFxM {N : ℕ} (pos : Fin N → ℝ × ℝ) (phase : Fin N → ℝ) (i j : Fin N) : ℝ :=
  (if maskM pos i j then 0 else dxM pos i j * invDistM pos i j) * couplingM phase i j

/-- J-term y-component on i from j (lines 213-217). -/
def attFyM {N : ℕ} (pos : Fin N → ℝ × ℝ) (phase : Fin N → ℝ) (i j : Fin N) : ℝ :=
  (if maskM pos i j then 0 else dyM pos i j * invDistM pos i j) * couplingM phase i j

/-- Net x-force on agent i: sum of repulsion then J-term over all j
(lines 203, 220). -/
def forceXM {N : ℕ} (pos : Fin N → ℝ × ℝ) (phase : Fin N → ℝ) (i : Fin N) : ℝ :=
  (∑ j, repFxM pos i j) + ∑ j, attFxM pos phase i j

/-- Net y-force on agent i (lines 204, 221). -/
def forceYM {N : ℕ} (pos : Fin N → ℝ × ℝ) (phase : Fin N → ℝ) (i : Fin N) : ℝ :=
  (∑ j, repFyM pos i j) + ∑ j, attFyM pos phase i j

/-- Net force vector on agent i. -/
def forceVec {N : ℕ} (pos : Fin N → ℝ × ℝ) (phase : Fin N → ℝ) (i : Fin N) : ℝ × ℝ :=
  (forceXM pos phase i, forceYM pos phase i)

/-- Phase derivative of agent i: natural frequency plus
`K * sin(phase[j]-phase[i]) * inv_distance / N` summed over j (lines 158, 225-228). -/
def phaseDerivM {N : ℕ} (pos : Fin N → ℝ × ℝ) (phase omega : Fin N → ℝ) (i : Fin N) : ℝ :=
  omega i + ∑ j, K * Real.sin (phase j - phase i) * invDistM pos i j / N

/-! ## Toroidal distance helper (`_toroidal_distance`, core.py lines 120-146)

Defined in the source but NOT used by the force kernel; needed to compare
against the kernel's straight-line distances. -/

/-- Wrapped x-difference (lines 133, 137-139). -/
def torDxM {N : ℕ} (pos : Fin N → ℝ × ℝ) (i j : Fin N) : ℝ :=
  if |dxM pos i j| > LOGICAL_WIDTH / 2 then
    (if dxM pos i j > 0 then dxM pos i j - LOGICAL_WIDTH else dxM pos i j + LOGICAL_WIDTH)
  else dxM pos i j

/-- Wrapped y-difference (lines 134, 140-142). -/
def torDyM {N : ℕ} (pos : Fin N → ℝ × ℝ) (i j : Fin N) : ℝ :=
  if |dyM pos i j| > LOGICAL_HEIGHT / 2 then
    (if dyM pos i j > 0 then dyM pos i j - LOGICAL_HEIGHT else dyM pos i j + LOGICAL_HEIGHT)
  else dyM pos i j

/-- Squared toroidal distance: `dx*dx + dy*dy` on the wrapped differences (line 144). -/
def torDistSqM {N : ℕ} (pos : Fin N → ℝ × ℝ) (i j : Fin N) : ℝ :=
  torDxM pos i j * torDxM pos i j + torDyM pos i j * torDyM pos i j

/-! ## Hold state machine and step (`step`, core.py lines 230-280) -/

/-- Action 1 or 3 holds the hero (lines 243, 267). -/
def heroHeld (a : ℤ) : Prop := a = 1 ∨ a = 3

/-- Action 2 or 3 holds the targets (lines 245, 273). -/
def targHeld (a : ℤ) : Prop := a = 2 ∨ a = 3

/-- Indices touched by a targets hold: `range(1, min(11, N))` (lines 246, 274). -/
def isTarget (N : ℕ) (i : Fin N) : Prop := 1 ≤ (i : ℕ) ∧ (i : ℕ) < min 11 N

/-- Snapshot map after the pre-step capture (lines 241-247): when the action
changed, positions of newly held agents are captured; otherwise the dict is
left as is. -/
def snapsAfter {N : ℕ} (s : SwarmState N) (a : ℤ) (i : Fin N) : Option (ℝ × ℝ) :=
  if s.prevAction = a then s.prevPositions i
  else if heroHeld a ∧ (i : ℕ) = 0 then some (s.pos i)
  else if targHeld a ∧ isTarget N i then some (s.pos i)
  else s.prevPositions i

/-- Integrated-and-wrapped position of agent i: `pos += vel*dt` with
`vel = force` (lines 253-256) followed by per-axis `np.mod` wrap (lines 262-264). -/
def posWrapped {N : ℕ} (s : SwarmState N) (dt : ℝ) (i : Fin N) : ℝ × ℝ :=
  (fmod ((s.pos i).1 + forceXM s.pos s.phase i * dt) LOGICAL_WIDTH,
   fmod ((s.pos i).2 + forceYM s.pos s.phase i * dt) LOGICAL_HEIGHT)

/-- One physics step (`step`, lines 230-280): capture snapshots on an action
transition, compute forces, set velocity to force, integrate, wrap phase and
position, then re-pin held agents (position from the snapshot when present,
velocity and force zeroed unconditionally), finally record the action. -/
def step {N : ℕ} (s : SwarmState N) (dt : ℝ) (a : ℤ) : SwarmState N :=
  { pos := fun i =>
      if heroHeld a ∧ (i : ℕ) = 0 then (snapsAfter s a i).getD (posWrapped s dt i)
      else if targHeld a ∧ isTarget N i then (snapsAfter s a i).getD (posWrapped s dt i)
      else posWrapped s dt i,
    phase := fun i =>
      fmod (s.phase i + phaseDerivM s.pos s.phase s.omega i * dt) (2 * Real.pi),
    vel := fun i =>
      if (heroHeld a ∧ (i : ℕ) = 0) ∨ (targHeld a ∧ isTarget N i) then (0, 0)
      else forceVec s.pos s.phase i,
    force := fun i =>
      if (heroHeld a ∧ (i : ℕ) = 0) ∨ (targHeld a ∧ isTarget N i) then (0, 0)
      else forceVec s.pos s.phase i,
    omega := s.omega,
    phaseDeriv := fun i => phaseDerivM s.pos s.phase s.omega i,
    prevAction := a,
    prevPositions := snapsAfter s a }

/-- `step` with the default time step (`dt=None`, lines 238-239). -/
def stepDefault {N : ℕ} (s : SwarmState N) (a : ℤ) : SwarmState N := step s DT a

/-- Run a list of `(dt, action)` steps in order. -/
def runList {N : ℕ} (s : SwarmState N) : List (ℝ × ℤ) → SwarmState N
  | [] => s
  | x :: xs => runList (step s x.1 x.2) xs

/-! ## Initialization (`reset`, core.py lines 63-118) -/

/-- Freshly initialized state from a unit-draw stream `u` (draws consumed in
source order: 2N position draws row-major, N phase draws, N frequency draws).
`rng.uniform(low, high)` on the k-th draw is `low + (high - low) * u k`;
positions are re-centered by subtracting the sample center of mass and adding
the logical center, with no wrap (lines 100-110); velocities are zero so the
mean-velocity recentering (lines 104-106) subtracts zero. -/
def initState (N : ℕ) (u : ℕ → ℝ) : SwarmState N :=
  { pos := fun i =>
      (LOGICAL_WIDTH * u (2 * (i : ℕ))
         - (∑ k : Fin N, LOGICAL_WIDTH * u (2 * (k : ℕ))) / N + LOGICAL_WIDTH / 2,
       LOGICAL_HEIGHT * u (2 * (i : ℕ) + 1)
         - (∑ k : Fin N, LOGICAL_HEIGHT * u (2 * (k : ℕ) + 1)) / N + LOGICAL_HEIGHT / 2),
    phase := fun i => 2 * Real.pi * u (2 * N + (i : ℕ)),
    vel := fun _ => (0, 0),
    omega := fun i =>
      BASE_OMEGA + (-OMEGA_VARIATION + (OMEGA_VARIATION - -OMEGA_VARIATION) * u (3 * N + (i : ℕ))),
    force := fun _ => (0, 0),
    phaseDeriv := fun _ => 0,
    prevAction := 0,
    prevPositions := fun _ => none }

/-- A Python value passed as the `seed` argument: either an `int` or some
object of an invalid type (which `np.random.RandomState` rejects by raising). -/
inductive PySeed
  | int : ℤ → PySeed
  | nonInt : PySeed

/-- The engine object: the stored `self.seed` attribute, the seed and current
position of `self.rng`'s underlying stream, and the state arrays. -/
structure Engine (N : ℕ) where
  seed : PySeed
  rngSeed : ℤ
  rngOff : ℕ
  state : SwarmState N

/-- State arrays produced by a reset that draws from stream `U sd` starting at
position `off`. One reset consumes `4*N` draws. -/
def initFrom (U : ℤ → ℕ → ℝ) (N : ℕ) (sd : ℤ) (off : ℕ) : SwarmState N :=
  initState N fun k => U sd (off + k)

/-- Whether `reset(seed)` raises: only an invalid seed type does, inside
`np.random.RandomState(seed)` (line 72). -/
def resetRaises : Option PySeed → Bool
  | some PySeed.nonInt => true
  | _ => false

/-- Engine state after a `reset(seed)` call (core.py lines 63-118), including
the state left behind when the call raises: `self.seed = seed` (line 71) runs
before `RandomState(seed)` (line 72) raises, so on an invalid seed type only
the `seed` attribute has been overwritten. With `seed=None` the existing
`self.rng` is reused, continuing its stream from the current position. -/
def resetRun (U : ℤ → ℕ → ℝ) {N : ℕ} (e : Engine N) : Option PySeed → Engine N
  | none =>
      { seed := e.seed, rngSeed := e.rngSeed, rngOff := e.rngOff + 4 * N,
        state := initFrom U N e.rngSeed e.rngOff }
  | some (PySeed.int z) =>
      { seed := PySeed.int z, rngSeed := z, rngOff := 4 * N,
        state := initFrom U N z 0 }
  | some PySeed.nonInt => { e with seed := PySeed.nonInt }

/-- A freshly constructed engine for an integer seed (`__init__`, lines 36-61:
store the seed, build the RNG, then `self.reset()` which reuses that fresh
RNG from stream position 0). -/
def engine0 (U : ℤ → ℕ → ℝ) (N : ℕ) (z : ℤ) : Engine N :=
  { seed := PySeed.int z, rngSeed := z, rngOff := 4 * N, state := initFrom U N z 0 }

/-- `construct(seed)` (`__init__`): with an invalid seed type,
`RandomState(seed)` raises and no engine is produced. -/
def construct (U : ℤ → ℕ → ℝ) (N : ℕ) : PySeed → Option (Engine N)
  | PySeed.int z => some (engine0 U N z)
  | PySeed.nonInt => none

/-- One engine-level step: `step` touches only the state arrays, never the RNG. -/
def stepEngine {N : ℕ} (e : Engine N) (dt : ℝ) (a : ℤ) : Engine N :=
  { e with state := step e.state dt a }

/-- Run a list of `(dt, action)` engine steps in order. -/
def runSteps {N : ℕ} (e : Engine N) (L : List (ℝ × ℤ)) : Engine N :=
  L.foldl (fun t x => stepEngine t x.1 x.2) e

/-- Positions inside the logical domain `[0, W) × [0, H)`. -/
def inDomain (p : ℝ × ℝ) : Prop :=
  0 ≤ p.1 ∧ p.1 < LOGICAL_WIDTH ∧ 0 ≤ p.2 ∧ p.2 < LOGICAL_HEIGHT

/-! ## Concrete fixtures for witnesses and counterexamples -/

/-- Stream whose first draw is 999/1000 and all others 0 (all draws in [0,1)). -/
def U0 : ℤ → ℕ → ℝ := fun _ n => if n = 0 then 999 / 1000 else 0

/-- The all-zero stream. -/
def U1 : ℤ → ℕ → ℝ := fun _ _ => 0

/-- A stream of pairwise distinct draws in [0,1). -/
def U2 : ℤ → ℕ → ℝ := fun _ n => (n : ℝ) / ((n : ℝ) + 1)

/-- A trivial one-agent state used to instantiate theorems at a concrete input. -/
def zeroState : SwarmState 1 :=
  { pos := fun _ => (0, 0), phase := fun _ => 0, vel := fun _ => (0, 0),
    omega := fun _ => 0, force := fun _ => (0, 0), phaseDeriv := fun _ => 0,
    prevAction := 0, prevPositions := fun _ => none }

/-- Two agents at opposite corners of the domain (separated by more than half
the domain on each axis). -/
def pos2 : Fin 2 → ℝ × ℝ := fun i => if (i : ℕ) = 0 then (10, 10) else (900, 900)

/-- Agent i is pinned by action a: the hero branch or the targets branch of
the hold logic applies to it. -/
def pins {N : ℕ} (a : ℤ) (i : Fin N) : Prop :=
  (heroHeld a ∧ (i : ℕ) = 0) ∨ (targHeld a ∧ isTarget N i)

/-! ## Symmetry lemmas for the force kernel -/

lemma dx_antisymm {N : ℕ} (pos : Fin N → ℝ × ℝ) (i j : Fin N) :
    dxM pos j i = -dxM pos i j := by
  unfold dxM; ring

lemma dy_antisymm {N : ℕ} (pos : Fin N → ℝ × ℝ) (i j : Fin N) :
    dyM pos j i = -dyM pos i j := by
  unfold dyM; ring

lemma distSq_symm {N : ℕ} (pos : Fin N → ℝ × ℝ) (i j : Fin N) :
    distSqM pos j i = distSqM pos i j := by
  unfold distSqM dxM dyM; ring

lemma mask_symm {N : ℕ} (pos : Fin N → ℝ × ℝ) (i j : Fin N) :
    maskM pos j i ↔ maskM pos i j := by
  unfold maskM
  rw [distSq_symm]
  exact or_congr eq_comm Iff.rfl

lemma invDist_symm {N : ℕ} (pos : Fin N → ℝ × ℝ) (i j : Fin N) :
    invDistM pos j i = invDistM pos i j := by
  unfold invDistM
  rw [distSq_symm]
  exact if_congr (mask_symm pos i j) rfl rfl

lemma repMag_symm {N : ℕ} (pos : Fin N → ℝ × ℝ) (i j : Fin N) :
    repMagM pos j i = repMagM pos i j := by
  unfold repMagM
  rw [distSq_symm]
  exact if_congr (mask_symm pos i j) rfl rfl

lemma repFx_antisymm {N : ℕ} (pos : Fin N → ℝ × ℝ) (i j : Fin N) :
    repFxM pos j i = -repFxM pos i j := by
  unfold repFxM
  rw [dx_antisymm, invDist_symm, repMag_symm]
  ring

lemma repFy_antisymm {N : ℕ} (pos : Fin N → ℝ × ℝ) (i j : Fin N) :
    repFyM pos j i = -repFyM pos i j := by
  unfold repFyM
  rw [dy_antisymm, invDist_symm, repMag_symm]
  ring

lemma cos_phase_symm {N : ℕ} (phase : Fin N → ℝ) (i j : Fin N) :
    Real.cos (phase i - phase j) = Real.cos (phase j - phase i) := by
  have h : phase i - phase j = -(phase j - phase i) := by ring
  rw [h, Real.cos_neg]

lemma attFx_antisymm {N : ℕ} (pos : Fin N → ℝ × ℝ) (phase : Fin N → ℝ) (i j : Fin N) :
    attFxM pos phase j i = -attFxM pos phase i j := by
  unfold attFxM couplingM
  by_cases h : maskM pos i j
  · rw [if_pos ((mask_symm pos i j).mpr h), if_pos h]
    ring
  · rw [if_neg (fun hc => h ((mask_symm pos i j).mp hc)), if_neg h]
    rw [dx_antisymm, invDist_symm, cos_phase_symm]
    ring

lemma attFy_antisymm {N : ℕ} (pos : Fin N → ℝ × ℝ) (phase : Fin N → ℝ) (i j : Fin N) :
    attFyM pos phase j i = -attFyM pos phase i j := by
  unfold attFyM couplingM
  by_cases h : maskM pos i j
  · rw [if_pos ((mask_symm pos i j).mpr h), if_pos h]
    ring
  · rw [if_neg (fun hc => h ((mask_symm pos i j).mp hc)), if_neg h]
    rw [dy_antisymm, invDist_symm, cos_phase_symm]
    ring

lemma sum_pair_antisymm {N : ℕ} (f : Fin N → Fin N → ℝ) (h : ∀ i j, f j i = -f i j) :
    ∑ i, ∑ j, f i j = 0 := by
  have key : (∑ i, ∑ j, f i j) = -∑ i, ∑ j, f i j := by
    calc (∑ i, ∑ j, f i j) = ∑ j, ∑ i, f i j := Finset.sum_comm
      _ = ∑ j, ∑ i, -f j i := by
          refine Finset.sum_congr rfl fun j _ => Finset.sum_congr rfl fun i _ => ?_
          exact h j i
      _ = -∑ j, ∑ i, f j i := by
          simp [Finset.sum_neg_distrib]
  linarith

/-! ## Theorems -/

/-- On an axis of length `L`, when `|d| > L/2` the wrapped difference is
strictly shorter than the straight-line one and nonzero (for `-L < d < L`). -/
lemma wrap_sq_lt {d L : ℝ} (hL : 0 < L) (hlo : -L < d) (hhi : d < L)
    (habs : |d| > L / 2) :
    (if d > 0 then d - L else d + L) * (if d > 0 then d - L else d + L) < d * d ∧
    0 < (if d > 0 then d - L else d + L) * (if d > 0 then d - L else d + L) := by
  by_cases h : d > 0
  · rw [if_pos h]
    have h1 : d > L / 2 := by rwa [abs_of_pos h] at habs
    exact ⟨by nlinarith, mul_pos_of_neg_of_neg (by linarith) (by linarith)⟩
  · rw [if_neg h]
    push_neg at h
    have h1 : d < -(L / 2) := by
      rw [abs_of_nonpos h] at habs; linarith
    exact ⟨by nlinarith, mul_pos (by linarith) (by linarith)⟩

/-- C1: for any pair of in-domain agents separated by more than W/2 on the x
axis and more than H/2 on the y axis, the force kernel works with the
straight-line differences `pos[j] - pos[i]` and the unwrapped squared distance,
which strictly exceeds the toroidal one; consequently the repulsion magnitude
it computes is strictly smaller than the toroidal-shortened distance would
give, and the reciprocal distance entering the J-coupling direction and the
K phase-coupling term is strictly smaller as well. -/
theorem swarm_c1 (N : ℕ) (pos : Fin N → ℝ × ℝ) (i j : Fin N)
    (hi : inDomain (pos i)) (hj : inDomain (pos j))
    (hx : |dxM pos i j| > LOGICAL_WIDTH / 2) (hy : |dyM pos i j| > LOGICAL_HEIGHT / 2) :
    dxM pos i j = (pos j).1 - (pos i).1 ∧
    dyM pos i j = (pos j).2 - (pos i).2 ∧
    ¬ maskM pos i j ∧
    torDistSqM pos i j < distSqM pos i j ∧
    repMagM pos i j = REPULSION_STRENGTH * (1 / (distSqM pos i j + EPSILON)) / N ∧
    repMagM pos i j
      < REPULSION_STRENGTH * (1 / (torDistSqM pos i j + EPSILON)) / N ∧
    invDistM pos i j = 1 / Real.sqrt (distSqM pos i j) ∧
    invDistM pos i j < 1 / Real.sqrt (torDistSqM pos i j) := by
  obtain ⟨hix0, hix1, hiy0, hiy1⟩ := hi
  obtain ⟨hjx0, hjx1, hjy0, hjy1⟩ := hj
  have hW : (0:ℝ) < LOGICAL_WIDTH := by norm_num [LOGICAL_WIDTH]
  have hH : (0:ℝ) < LOGICAL_HEIGHT := by norm_num [LOGICAL_HEIGHT]
  have hdxlo : -LOGICAL_WIDTH < dxM pos i j := by unfold dxM; linarith
  have hdxhi : dxM pos i j < LOGICAL_WIDTH := by unfold dxM; linarith
  have hdylo : -LOGICAL_HEIGHT < dyM pos i j := by unfold dyM; linarith
  have hdyhi : dyM pos i j < LOGICAL_HEIGHT := by unfold dyM; linarith
  have hxw := wrap_sq_lt hW hdxlo hdxhi hx
  have hyw := wrap_sq_lt hH hdylo hdyhi hy
  have htorx : torDxM pos i j = if dxM pos i j > 0 then dxM pos i j - LOGICAL_WIDTH
      else dxM pos i j + LOGICAL_WIDTH := by
    unfold torDxM; rw [if_pos hx]
  have htory : torDyM pos i j = if dyM pos i j > 0 then dyM pos i j - LOGICAL_HEIGHT
      else dyM pos i j + LOGICAL_HEIGHT := by
    unfold torDyM; rw [if_pos hy]
  have hlt : torDistSqM pos i j < distSqM pos i j := by
    unfold torDistSqM distSqM
    rw [htorx, htory]
    exact add_lt_add hxw.1 hyw.1
  have htq_pos : 0 < torDistSqM pos i j := by
    unfold torDistSqM
    rw [htorx, htory]
    exact add_pos hxw.2 hyw.2
  have hdxsq : (250000:ℝ) < dxM pos i j * dxM pos i j := by
    have h500 : (500:ℝ) < |dxM pos i j| := by
      rw [show LOGICAL_WIDTH / 2 = (500:ℝ) by norm_num [LOGICAL_WIDTH]] at hx
      exact hx
    have habs : (250000:ℝ) < |dxM pos i j| * |dxM pos i j| := by nlinarith
    rwa [abs_mul_abs_self] at habs
  have hmask : ¬ maskM pos i j := by
    intro hm
    rcases hm with hij | hsm
    · rw [hij] at hx
      unfold dxM at hx
      simp at hx
      rw [show LOGICAL_WIDTH / 2 = (500:ℝ) by norm_num [LOGICAL_WIDTH]] at hx
      linarith
    · unfold distSqM at hsm
      nlinarith [mul_self_nonneg (dyM pos i j)]
  have hNpos : (0:ℝ) < N := by exact_mod_cast i.pos
  have hEps : EPSILON = (4:ℝ) := by norm_num [EPSILON]
  have hRS : (0:ℝ) < REPULSION_STRENGTH := by norm_num [REPULSION_STRENGTH]
  have hfrac : 1 / (distSqM pos i j + EPSILON) < 1 / (torDistSqM pos i j + EPSILON) := by
    apply one_div_lt_one_div_of_lt
    · rw [hEps]; linarith
    · linarith
  have hmag : repMagM pos i j = REPULSION_STRENGTH * (1 / (distSqM pos i j + EPSILON)) / N := by
    unfold repMagM; rw [if_neg hmask]
  have hmaglt : repMagM pos i j
      < REPULSION_STRENGTH * (1 / (torDistSqM pos i j + EPSILON)) / N := by
    rw [hmag, div_lt_div_iff_of_pos_right hNpos]
    exact mul_lt_mul_of_pos_left hfrac hRS
  have hinveq : invDistM pos i j = 1 / Real.sqrt (distSqM pos i j) := by
    unfold invDistM; rw [if_neg hmask]
  have hsqlt : Real.sqrt (torDistSqM pos i j) < Real.sqrt (distSqM pos i j) :=
    Real.sqrt_lt_sqrt (le_of_lt htq_pos) hlt
  have hsqpos : 0 < Real.sqrt (torDistSqM pos i j) := Real.sqrt_pos.mpr htq_pos
  have hinvlt : invDistM pos i j < 1 / Real.sqrt (torDistSqM pos i j) := by
    rw [hinveq]
    exact one_div_lt_one_div_of_lt hsqpos hsqlt
  exact ⟨rfl, rfl, hmask, hlt, hmag, hmaglt, hinveq, hinvlt⟩

/-- C5: the sum over all agents of the force-kernel output (repulsion plus
J-coupling contributions) is exactly zero for every swarm state: the pairwise
construction is antisymmetric, the contribution of pair (i,j) to agent i being
the negation of the contribution of (j,i) to agent j. (The kernel never reads
the hold state, so this holds whether or not holds are active.) -/
theorem swarm_c5 (N : ℕ) (pos : Fin N → ℝ × ℝ) (phase : Fin N → ℝ) :
    (∑ i, forceXM pos phase i) = 0 ∧ (∑ i, forceYM pos phase i) = 0 := by
  constructor
  · unfold forceXM
    rw [Finset.sum_add_distrib,
      sum_pair_antisymm _ (repFx_antisymm pos),
      sum_pair_antisymm _ (attFx_antisymm pos phase)]
    ring
  · unfold forceYM
    rw [Finset.sum_add_distrib,
      sum_pair_antisymm _ (repFy_antisymm pos),
      sum_pair_antisymm _ (attFy_antisymm pos phase)]
    ring

/-! ## Wrapping bounds -/

lemma fmod_eq_fract (x : ℝ) {m : ℝ} (hm : m ≠ 0) :
    fmod x m = m * Int.fract (x / m) := by
  unfold fmod Int.fract
  field_simp

lemma fmod_mem (x : ℝ) {m : ℝ} (hm : 0 < m) : 0 ≤ fmod x m ∧ fmod x m < m := by
  rw [fmod_eq_fract x hm.ne']
  constructor
  · exact mul_nonneg hm.le (Int.fract_nonneg _)
  · calc m * Int.fract (x / m) < m * 1 := mul_lt_mul_of_pos_left (Int.fract_lt_one _) hm
      _ = m := mul_one m

lemma posWrapped_inDomain {N : ℕ} (s : SwarmState N) (dt : ℝ) (i : Fin N) :
    inDomain (posWrapped s dt i) := by
  have hW : (0:ℝ) < LOGICAL_WIDTH := by norm_num [LOGICAL_WIDTH]
  have hH : (0:ℝ) < LOGICAL_HEIGHT := by norm_num [LOGICAL_HEIGHT]
  exact ⟨(fmod_mem _ hW).1, (fmod_mem _ hW).2, (fmod_mem _ hH).1, (fmod_mem _ hH).2⟩

/-! ## Hold-pinning lemmas -/

/-- On an action transition, a pinned agent's current position is captured. -/
lemma snaps_capture {N : ℕ} (s : SwarmState N) (a : ℤ) (i : Fin N)
    (hpin : pins a i) (hprev : s.prevAction ≠ a) :
    snapsAfter s a i = some (s.pos i) := by
  simp only [snapsAfter, if_neg hprev]
  rcases hpin with hcase | hcase
  · rw [if_pos hcase]
  · by_cases hh : heroHeld a ∧ (i : ℕ) = 0
    · rw [if_pos hh]
    · rw [if_neg hh, if_pos hcase]

/-- Without an action transition the snapshot dict is left unchanged. -/
lemma snaps_keep {N : ℕ} (s : SwarmState N) (a : ℤ) (i : Fin N)
    (hprev : s.prevAction = a) :
    snapsAfter s a i = s.prevPositions i := by
  simp only [snapsAfter, if_pos hprev]

/-- A pinned agent with a present snapshot ends the step at the snapshot
position, with velocity and force zeroed, and the snapshot still present. -/
lemma step_pinned {N : ℕ} (s : SwarmState N) (dt : ℝ) (a : ℤ) (i : Fin N)
    (hpin : pins a i) (p : ℝ × ℝ) (hsnap : snapsAfter s a i = some p) :
    (step s dt a).pos i = p ∧ (step s dt a).vel i = (0, 0) ∧
    (step s dt a).force i = (0, 0) ∧ (step s dt a).prevPositions i = some p := by
  have hpin' : (heroHeld a ∧ (i : ℕ) = 0) ∨ (targHeld a ∧ isTarget N i) := hpin
  simp only [step]
  refine ⟨?_, ?_, ?_, hsnap⟩
  · rcases hpin with hcase | hcase
    · rw [if_pos hcase, hsnap]
      rfl
    · by_cases hh : heroHeld a ∧ (i : ℕ) = 0
      · rw [if_pos hh, hsnap]
        rfl
      · rw [if_neg hh, if_pos hcase, hsnap]
        rfl
  · rw [if_pos hpin']
  · rw [if_pos hpin']

/-- Once an agent is at position p with snapshot p, a run of steps whose
actions all pin it keeps it exactly at p (velocity and force zeroed after
each step of the run). -/
lemma pinned_chain {N : ℕ} (i : Fin N) (p : ℝ × ℝ) (M : List (ℝ × ℤ)) :
    ∀ t : SwarmState N,
      (∀ x ∈ M, pins x.2 i) → t.pos i = p → t.prevPositions i = some p →
      ∀ j, j ≤ M.length →
        (runList t (M.take j)).pos i = p ∧
        (runList t (M.take j)).prevPositions i = some p ∧
        (1 ≤ j → (runList t (M.take j)).vel i = (0, 0) ∧
                 (runList t (M.take j)).force i = (0, 0)) := by
  induction M with
  | nil =>
    intro t _ hpos hsnap j hj
    have hj0 : j = 0 := Nat.le_zero.mp hj
    subst hj0
    simp only [List.take_nil, runList]
    exact ⟨hpos, hsnap, fun h => absurd h (by omega)⟩
  | cons x M' ih =>
    intro t hM hpos hsnap j hj
    cases j with
    | zero =>
      simp only [List.take_zero, runList]
      exact ⟨hpos, hsnap, fun h => absurd h (by omega)⟩
    | succ j' =>
      have hpin : pins x.2 i := hM x (List.mem_cons_self x M')
      have hstep : (step t x.1 x.2).pos i = p ∧ (step t x.1 x.2).vel i = (0, 0) ∧
          (step t x.1 x.2).force i = (0, 0) ∧
          (step t x.1 x.2).prevPositions i = some p := by
        by_cases hprev : t.prevAction = x.2
        · have hsnap' : snapsAfter t x.2 i = some p := by
            rw [snaps_keep t x.2 i hprev]
            exact hsnap
          exact step_pinned t x.1 x.2 i hpin p hsnap'
        · have hsnap' : snapsAfter t x.2 i = some (t.pos i) :=
            snaps_capture t x.2 i hpin hprev
          rw [hpos] at hsnap'
          exact step_pinned t x.1 x.2 i hpin p hsnap'
      have hM' : ∀ y ∈ M', pins y.2 i := fun y hy => hM y (List.mem_cons_of_mem x hy)
      have hj' : j' ≤ M'.length := by
        simp only [List.length_cons] at hj
        omega
      have hrec := ih (step t x.1 x.2) hM' hstep.1 hstep.2.2.2 j' hj'
      simp only [List.take_succ_cons, runList]
      refine ⟨hrec.1, hrec.2.1, fun _ => ?_⟩
      by_cases hj1 : 1 ≤ j'
      · exact hrec.2.2 hj1
      · have hj0 : j' = 0 := by omega
        subst hj0
        simp only [List.take_zero, runList]
        exact ⟨hstep.2.1, hstep.2.2.1⟩

/-- Snapshots stay inside the domain when positions and stored snapshots are. -/
lemma snapsAfter_inDomain {N : ℕ} (s : SwarmState N) (a : ℤ)
    (hpos : ∀ i, inDomain (s.pos i))
    (hsnap : ∀ i p, s.prevPositions i = some p → inDomain p) :
    ∀ i p, snapsAfter s a i = some p → inDomain p := by
  intro i p hp
  unfold snapsAfter at hp
  by_cases hpa : s.prevAction = a
  · rw [if_pos hpa] at hp
    exact hsnap i p hp
  · rw [if_neg hpa] at hp
    by_cases hh : heroHeld a ∧ (i : ℕ) = 0
    · rw [if_pos hh] at hp
      injection hp with hp
      exact hp ▸ hpos i
    · rw [if_neg hh] at hp
      by_cases ht : targHeld a ∧ isTarget N i
      · rw [if_pos ht] at hp
        injection hp with hp
        exact hp ▸ hpos i
      · rw [if_neg ht] at hp
        exact hsnap i p hp

/-- Concrete out-of-domain reset: with the stream `U0` and N = 3, the raw
positions are (999,0), (0,0), (0,0), the center of mass is (333,0), and the
re-centering moves agent 0 to (1166, 500), outside `[0, 1000)` on x. -/
lemma reset_pos0 : (engine0 U0 3 0).state.pos 0 = (1166, 500) := by
  show (initState 3 fun k => U0 0 (0 + k)).pos 0 = _
  unfold initState U0
  simp only [Fin.sum_univ_three, Fin.val_zero, Fin.val_one, Fin.val_two]
  norm_num [LOGICAL_WIDTH, LOGICAL_HEIGHT, Prod.ext_iff]

/-- After one HoldHero step from that reset, agent 0 is pinned at (1166, 500). -/
lemma step_pos0 : (stepEngine (engine0 U0 3 0) DT 1).state.pos 0 = (1166, 500) := by
  have hprev : (engine0 U0 3 0).state.prevAction ≠ 1 := by
    show (0 : ℤ) ≠ 1
    decide
  have hpin : pins (1 : ℤ) (0 : Fin 3) := Or.inl ⟨Or.inl rfl, rfl⟩
  have hsnap := snaps_capture (engine0 U0 3 0).state 1 0 hpin hprev
  rw [reset_pos0] at hsnap
  exact (step_pinned (engine0 U0 3 0).state DT 1 0 hpin (1166, 500) hsnap).1

lemma out1166 : ¬ inDomain ((1166 : ℝ), (500 : ℝ)) := by
  intro h
  obtain ⟨_, h1, _⟩ := h
  norm_num [LOGICAL_WIDTH] at h1

/-- C3: for a fixed seed and a fixed finite `(dt, action)` sequence, two
independently constructed engine instances (any prior engine values `d1`, `d2`
reset with the same integer seed over the same draw stream) have identical
states after every step, i.e. after every prefix of the sequence. -/
theorem swarm_c3 (U : ℤ → ℕ → ℝ) (N : ℕ) (d1 d2 : Engine N) (z : ℤ)
    (L : List (ℝ × ℤ)) (k : ℕ) :
    runSteps (resetRun U d1 (some (PySeed.int z))) (L.take k)
      = runSteps (resetRun U d2 (some (PySeed.int z))) (L.take k) := rfl

/-- C6: `reset(seed)` called twice in a row produces identical engine state
both times, with a cleared hold snapshot and previous action equal to no-op. -/
theorem swarm_c6 (U : ℤ → ℕ → ℝ) (N : ℕ) (e : Engine N) (z : ℤ) :
    resetRun U (resetRun U e (some (PySeed.int z))) (some (PySeed.int z))
        = resetRun U e (some (PySeed.int z)) ∧
    (resetRun U e (some (PySeed.int z))).state.prevPositions = (fun _ => none) ∧
    (resetRun U e (some (PySeed.int z))).state.prevAction = 0 :=
  ⟨rfl, rfl, rfl⟩

/-- C8 counterexample: resetting with an invalid seed type raises, yet the
engine is mutated: the stored `self.seed` attribute is overwritten (line 71
runs before `RandomState(seed)` raises on line 72), so "the engine state is
not mutated at all" fails as stated. -/
theorem swarm_c8_counterexample :
    resetRaises (some PySeed.nonInt) = true ∧
    (resetRun U1 (engine0 U1 1 0) (some PySeed.nonInt)).seed
      ≠ (engine0 U1 1 0).seed :=
  ⟨rfl, fun h => PySeed.noConfusion h⟩

/-- C8 amended: an invalid seed type makes construction fail with no engine
produced, and makes reset raise while leaving the state arrays and the RNG
stream untouched — but the stored seed attribute has already been overwritten
with the invalid value. (N and the domain dimensions are fixed positive class
constants, so the "N ≤ 0 / dimensions ≤ 0" configuration errors cannot arise.) -/
theorem swarm_c8_amended (U : ℤ → ℕ → ℝ) (N : ℕ) (e : Engine N) :
    construct U N PySeed.nonInt = none ∧
    resetRaises (some PySeed.nonInt) = true ∧
    (resetRun U e (some PySeed.nonInt)).state = e.state ∧
    (resetRun U e (some PySeed.nonInt)).rngSeed = e.rngSeed ∧
    (resetRun U e (some PySeed.nonInt)).rngOff = e.rngOff ∧
    (resetRun U e (some PySeed.nonInt)).seed = PySeed.nonInt :=
  ⟨rfl, rfl, rfl, rfl, rfl, rfl⟩

/-- C9 counterexample: `reset()` immediately after `reset(s)` does not
reproduce the arrays of `reset(s)`: with a stream of pairwise distinct draws,
the phase of agent 0 after the second call (drawn at stream position 6)
differs from the phase after the first call (drawn at stream position 2). -/
theorem swarm_c9_counterexample :
    (resetRun U2 (resetRun U2 (engine0 U2 1 0) (some (PySeed.int 0))) none).state.phase 0
      ≠ (resetRun U2 (engine0 U2 1 0) (some (PySeed.int 0))).state.phase 0 := by
  have h1 : (resetRun U2 (engine0 U2 1 0) (some (PySeed.int 0))).state.phase 0
      = 2 * Real.pi * (2 / 3) := by
    simp [resetRun, engine0, initFrom, initState, U2]
    norm_num
  have h2 : (resetRun U2 (resetRun U2 (engine0 U2 1 0) (some (PySeed.int 0))) none).state.phase 0
      = 2 * Real.pi * (6 / 7) := by
    simp [resetRun, engine0, initFrom, initState, U2]
    norm_num
  rw [h1, h2]
  intro h
  have h' := mul_left_cancel₀ (by positivity : (2 : ℝ) * Real.pi ≠ 0) h
  norm_num at h'

/-- C2: when a hold becomes active at step k (action differing from the
previous action) and remains continuously active through later steps, the
pinned agent sits at exactly the position it had immediately before step k's
force computation, with velocity and force zeroed after every such step: the
first conjunct covers agent 0 under HoldHero (actions 1 and 3), the second
covers agents 1..min(10, N-1) under HoldTargets (actions 2 and 3). -/
theorem swarm_c2 (N : ℕ) (s : SwarmState N) (dt₀ : ℝ) (a₀ : ℤ)
    (rest : List (ℝ × ℤ)) (i : Fin N) (hprev : s.prevAction ≠ a₀) :
    ((i : ℕ) = 0 → heroHeld a₀ → (∀ x ∈ rest, heroHeld x.2) →
      ∀ j, j ≤ rest.length →
        (runList (step s dt₀ a₀) (rest.take j)).pos i = s.pos i ∧
        (runList (step s dt₀ a₀) (rest.take j)).vel i = (0, 0) ∧
        (runList (step s dt₀ a₀) (rest.take j)).force i = (0, 0)) ∧
    (isTarget N i → targHeld a₀ → (∀ x ∈ rest, targHeld x.2) →
      ∀ j, j ≤ rest.length →
        (runList (step s dt₀ a₀) (rest.take j)).pos i = s.pos i ∧
        (runList (step s dt₀ a₀) (rest.take j)).vel i = (0, 0) ∧
        (runList (step s dt₀ a₀) (rest.take j)).force i = (0, 0)) := by
  constructor
  · intro hi ha hrest j hj
    have hpin : pins a₀ i := Or.inl ⟨ha, hi⟩
    have hsnap : snapsAfter s a₀ i = some (s.pos i) := snaps_capture s a₀ i hpin hprev
    have hstep := step_pinned s dt₀ a₀ i hpin (s.pos i) hsnap
    have hrec := pinned_chain i (s.pos i) rest (step s dt₀ a₀)
      (fun x hx => Or.inl ⟨hrest x hx, hi⟩) hstep.1 hstep.2.2.2 j hj
    refine ⟨hrec.1, ?_⟩
    by_cases hj1 : 1 ≤ j
    · exact hrec.2.2 hj1
    · have hj0 : j = 0 := by omega
      subst hj0
      simp only [List.take_zero, runList]
      exact ⟨hstep.2.1, hstep.2.2.1⟩
  · intro hi ha hrest j hj
    have hpin : pins a₀ i := Or.inr ⟨ha, hi⟩
    have hsnap : snapsAfter s a₀ i = some (s.pos i) := snaps_capture s a₀ i hpin hprev
    have hstep := step_pinned s dt₀ a₀ i hpin (s.pos i) hsnap
    have hrec := pinned_chain i (s.pos i) rest (step s dt₀ a₀)
      (fun x hx => Or.inr ⟨hrest x hx, hi⟩) hstep.1 hstep.2.2.2 j hj
    refine ⟨hrec.1, ?_⟩
    by_cases hj1 : 1 ≤ j
    · exact hrec.2.2 hj1
    · have hj0 : j = 0 := by omega
      subst hj0
      simp only [List.take_zero, runList]
      exact ⟨hstep.2.1, hstep.2.2.1⟩

/-- Witness for C2 at a concrete input: a one-agent engine stepped once with
HoldHero active keeps agent 0 at its pre-step position. -/
theorem swarm_c2_witness :
    (step zeroState 1 1).pos 0 = zeroState.pos 0 :=
  ((swarm_c2 1 zeroState 1 1 [] 0 (by decide)).1 rfl (Or.inl rfl)
    (fun x hx => absurd hx (List.not_mem_nil x)) 0 (Nat.le_refl 0)).1

/-- C7: for any action code other than 1, 2, 3 the step is hold-free: no
snapshot is captured (the dict is unchanged), every agent's position is the
plain integrated-and-wrapped one, and velocity and force equal the kernel
output with nothing zeroed; only `prev_action` records the code. -/
theorem swarm_c7 (N : ℕ) (s : SwarmState N) (dt : ℝ) (a : ℤ)
    (h1 : a ≠ 1) (h2 : a ≠ 2) (h3 : a ≠ 3) :
    (step s dt a).prevPositions = s.prevPositions ∧
    (step s dt a).pos = (fun i => posWrapped s dt i) ∧
    (step s dt a).vel = (fun i => forceVec s.pos s.phase i) ∧
    (step s dt a).force = (fun i => forceVec s.pos s.phase i) ∧
    (step s dt a).prevAction = a := by
  have hhero : ¬ heroHeld a := by
    intro hc
    rcases hc with hc | hc
    · exact h1 hc
    · exact h3 hc
  have htarg : ¬ targHeld a := by
    intro hc
    rcases hc with hc | hc
    · exact h2 hc
    · exact h3 hc
  have hsnaps : snapsAfter s a = s.prevPositions := by
    funext i
    unfold snapsAfter
    by_cases hpa : s.prevAction = a
    · rw [if_pos hpa]
    · rw [if_neg hpa, if_neg (fun hc => hhero hc.1), if_neg (fun hc => htarg hc.1)]
  refine ⟨hsnaps, ?_, ?_, ?_, rfl⟩
  · funext i
    simp only [step]
    rw [if_neg (fun hc => hhero hc.1), if_neg (fun hc => htarg hc.1)]
  · funext i
    simp only [step]
    rw [if_neg (fun hc => hc.elim (fun h => hhero h.1) (fun h => htarg h.1))]
  · funext i
    simp only [step]
    rw [if_neg (fun hc => hc.elim (fun h => hhero h.1) (fun h => htarg h.1))]

/-- Witness for C7 at a concrete input: action code 5 leaves the snapshot
dict of a one-agent engine unchanged. -/
theorem swarm_c7_witness :
    (step zeroState 1 5).prevPositions = zeroState.prevPositions :=
  (swarm_c7 1 zeroState 1 5 (by decide) (by decide) (by decide)).1

/-- Witness for C1 at the two-corner configuration: the kernel's squared
distance strictly exceeds the toroidal one and the pair is unmasked. -/
theorem swarm_c1_witness :
    torDistSqM pos2 0 1 < distSqM pos2 0 1 ∧ ¬ maskM pos2 0 1 := by
  have hdx : dxM pos2 0 1 = 890 := by norm_num [dxM, pos2]
  have hdy : dyM pos2 0 1 = 890 := by norm_num [dyM, pos2]
  have h := swarm_c1 2 pos2 0 1
    (by norm_num [pos2, inDomain, LOGICAL_WIDTH, LOGICAL_HEIGHT])
    (by norm_num [pos2, inDomain, LOGICAL_WIDTH, LOGICAL_HEIGHT])
    (by rw [hdx, abs_of_pos (by norm_num)]; norm_num [LOGICAL_WIDTH])
    (by rw [hdy, abs_of_pos (by norm_num)]; norm_num [LOGICAL_HEIGHT])
  exact ⟨h.2.2.2.1, h.2.2.1⟩

/-- C4 counterexample: from a reachable state (a freshly constructed engine
whose reset left agent 0 at (1166, 500), outside the domain), a step with
HoldHero active (action 1, default dt) ends with agent 0's position outside
`[0, W) × [0, H)`: the hold re-pins the unwrapped reset position after the
toroidal wrap has been applied. -/
theorem swarm_c4_counterexample :
    construct U0 3 (PySeed.int 0) = some (engine0 U0 3 0) ∧
    ¬ inDomain ((stepEngine (engine0 U0 3 0) DT 1).state.pos 0) := by
  refine ⟨rfl, ?_⟩
  rw [step_pos0]
  exact out1166

/-- C4 amended: after every step the phases all lie in `[0, 2π)`
unconditionally; positions lie in `[0, W) × [0, H)` provided the pre-step
positions and all stored hold snapshots do (an invariant that every step
preserves but that reset does not establish, since reset's re-centering can
place agents outside the domain). -/
theorem swarm_c4_amended (N : ℕ) (s : SwarmState N) (dt : ℝ) (a : ℤ)
    (hpos : ∀ i, inDomain (s.pos i))
    (hsnap : ∀ i p, s.prevPositions i = some p → inDomain p) :
    (∀ i, 0 ≤ (step s dt a).phase i ∧ (step s dt a).phase i < 2 * Real.pi) ∧
    (∀ i, inDomain ((step s dt a).pos i)) ∧
    (∀ i p, (step s dt a).prevPositions i = some p → inDomain p) := by
  have h2pi : (0:ℝ) < 2 * Real.pi := by positivity
  refine ⟨fun i => fmod_mem _ h2pi, fun i => ?_, snapsAfter_inDomain s a hpos hsnap⟩
  show inDomain (if heroHeld a ∧ (i : ℕ) = 0 then (snapsAfter s a i).getD (posWrapped s dt i)
    else if targHeld a ∧ isTarget N i then (snapsAfter s a i).getD (posWrapped s dt i)
    else posWrapped s dt i)
  have hgetD : inDomain ((snapsAfter s a i).getD (posWrapped s dt i)) := by
    cases hps : snapsAfter s a i with
    | none => exact posWrapped_inDomain s dt i
    | some p => exact snapsAfter_inDomain s a hpos hsnap i p hps
  by_cases hh : heroHeld a ∧ (i : ℕ) = 0
  · rw [if_pos hh]
    exact hgetD
  · rw [if_neg hh]
    by_cases ht : targHeld a ∧ isTarget N i
    · rw [if_pos ht]
      exact hgetD
    · rw [if_neg ht]
      exact posWrapped_inDomain s dt i

/-- Witness for C4 (amended) at a concrete input: a one-agent in-domain state
with no snapshots stays in-domain after a no-op step. -/
theorem swarm_c4_witness : inDomain ((step zeroState 1 0).pos 0) :=
  (swarm_c4_amended 1 zeroState 1 0
    (fun _ => by norm_num [zeroState, inDomain, LOGICAL_WIDTH, LOGICAL_HEIGHT])
    (fun i p h => by simp [zeroState] at h)).2.1 0

/-- C10: reset performs no wrap after re-centering: with the stream `U0`
(all draws in [0,1)) a freshly constructed 3-agent engine has agent 0 at
(1166, 500), outside `[0, W) × [0, H)`, and a HoldHero step taken as the very
first step pins that out-of-domain position, which persists after the step. -/
theorem swarm_c10 :
    construct U0 3 (PySeed.int 0) = some (engine0 U0 3 0) ∧
    (engine0 U0 3 0).state.pos 0 = (1166, 500) ∧
    ¬ inDomain ((engine0 U0 3 0).state.pos 0) ∧
    (stepEngine (engine0 U0 3 0) DT 1).state.pos 0 = (1166, 500) ∧
    ¬ inDomain ((stepEngine (engine0 U0 3 0) DT 1).state.pos 0) := by
  refine ⟨rfl, reset_pos0, ?_, step_pos0, ?_⟩
  · rw [reset_pos0]
    exact out1166
  · rw [step_pos0]
    exact out1166

/-- C9 amended: `reset()` with the seed omitted keeps the stored seed but
reuses the existing `RandomState`, continuing its stream from the current
position: immediately after `reset(s)` it draws stream positions `4N..8N-1`
rather than restarting at 0, so its arrays are those of `initFrom U s (4N)`,
not those of `reset(s)`. -/
theorem swarm_c9_amended (U : ℤ → ℕ → ℝ) (N : ℕ) (e : Engine N) (z : ℤ) :
    resetRun U (resetRun U e (some (PySeed.int z))) none
      = { seed := PySeed.int z, rngSeed := z, rngOff := 4 * N + 4 * N,
          state := initFrom U N z (4 * N) } := rfl

end

end SwarmSpec
